import Mathlib

/-!
# Verification of the habit-tracker web application (`app.py`)

Shallow embedding of the application's data model and operations.

* Calendar dates are represented by their proleptic-Gregorian ordinal
  (an integer, with ordinal 1 = 0001-01-01), exactly as CPython's
  `datetime.date.toordinal`.  Python integer `//` and `%` on positive
  divisors coincide with `/` and `%` on `Int` (Euclidean division), which
  we use throughout.
* The `datetime` / `calendar` routines the application calls
  (`toordinal`, `fromordinal`, `weekday`, `isleap`, month lengths and
  `Calendar(SUNDAY).monthdatescalendar`) are embedded below.
* The SQLite tables are embedded as lists of rows; each request handler
  becomes a pure function from the database state to a response paired
  with the new state.
-/

namespace HabitTracker

/-- `calendar.isleap(year)`:
`year % 4 == 0 and (year % 100 != 0 or year % 400 == 0)`. -/
def isLeap (y : ℤ) : Bool :=
  y % 4 == 0 && (y % 100 != 0 || y % 400 == 0)

/-- The lengths of the twelve months of year `y`
(`datetime._DAYS_IN_MONTH` with the February leap adjustment). -/
def monthLengths (y : ℤ) : List ℤ :=
  [31, if isLeap y then 29 else 28, 31, 30, 31, 30, 31, 31, 30, 31, 30, 31]

/-- `datetime._days_in_month(year, month)` (months numbered 1..12). -/
def daysInMonth (y m : ℤ) : ℤ :=
  (monthLengths y).getD (m.toNat - 1) 0

/-- Number of days in year `y`. -/
def daysInYear (y : ℤ) : ℤ := if isLeap y then 366 else 365

/-- `datetime._days_before_year(year)`: days before January 1st of `year`. -/
def daysBeforeYear (y : ℤ) : ℤ :=
  (y - 1) * 365 + (y - 1) / 4 - (y - 1) / 100 + (y - 1) / 400

/-- `datetime._days_before_month(year, month)`:
days of year `y` strictly before the first of month `m`. -/
def daysBeforeMonth (y m : ℤ) : ℤ :=
  ((monthLengths y).take (m.toNat - 1)).sum

/-- `date(y, m, d).toordinal()` (`datetime._ymd2ord`). -/
def toOrdinal (y m d : ℤ) : ℤ :=
  daysBeforeYear y + daysBeforeMonth y m + d

/-- A calendar date as a year / month / day triple, as carried by a
Python `datetime.date` object. -/
structure Ymd where
  year : ℤ
  month : ℤ
  day : ℤ
deriving DecidableEq

/-- Ordinal of a `Ymd` triple. -/
def Ymd.toOrd (x : Ymd) : ℤ := toOrdinal x.year x.month x.day

/-- Scan a list of month lengths converting a 0-based day-of-year `n`
into a (month, 1-based day) pair; `m0` is the number of the first month
of the list. -/
def monthFromDayOfYear : List ℤ → ℤ → ℤ → ℤ × ℤ
  | [], m0, n => (m0, n + 1)
  | len :: rest, m0, n =>
    if n < len then (m0, n + 1) else monthFromDayOfYear rest (m0 + 1) (n - len)

/-- `date.fromordinal(o)` (`datetime._ord2ymd`): the 400/100/4/1-year
divmod cascade, with the end-of-cycle fixup, then a scan of the month
lengths. -/
def fromOrdinal (o : ℤ) : Ymd :=
  let n := o - 1
  let n400 := n / 146097
  let r400 := n % 146097
  let n100 := r400 / 36524
  let r100 := r400 % 36524
  let n4 := r100 / 1461
  let r4 := r100 % 1461
  let n1 := r4 / 365
  let r1 := r4 % 365
  let year := n400 * 400 + n100 * 100 + n4 * 4 + n1 + 1
  if n1 == 4 || n100 == 4 then ⟨year - 1, 12, 31⟩
  else
    let md := monthFromDayOfYear (monthLengths year) 1 r1
    ⟨year, md.1, md.2⟩

/-- `date.fromordinal(o).weekday()`: Monday = 0 ... Sunday = 6
(ordinal 1, i.e. 0001-01-01, is a Monday). -/
def weekday (o : ℤ) : ℤ := (o + 6) % 7

/-! ## `calendar.Calendar(calendar.SUNDAY).monthdatescalendar`

`calendar.SUNDAY = 6` is the `firstweekday`.  CPython's `itermonthdays`
computes `days_before = (day1 - firstweekday) % 7` leading days and
`days_after = (firstweekday - day1 - ndays) % 7` trailing days around the
`ndays` days of the month, and `monthdatescalendar` chops the resulting
run of consecutive dates into weeks of 7. -/

/-- Ordinal of the first cell of the Sunday-started month grid. -/
def gridStart (year month : ℤ) : ℤ :=
  toOrdinal year month 1 - (weekday (toOrdinal year month 1) - 6) % 7

/-- Number of week rows of the month grid. -/
def gridWeeks (year month : ℤ) : ℕ :=
  (((weekday (toOrdinal year month 1) - 6) % 7 + daysInMonth year month +
      (6 - weekday (toOrdinal year month 1) - daysInMonth year month) % 7) /
    7).toNat

/-- `calendar.Calendar(calendar.SUNDAY).monthdatescalendar(year, month)`,
with dates as ordinals: a list of week rows, each a list of 7 consecutive
dates. -/
def monthdatescalendar (year month : ℤ) : List (List ℤ) :=
  (List.range (gridWeeks year month)).map fun (w : ℕ) =>
    (List.range 7).map fun (i : ℕ) =>
      gridStart year month + 7 * (w : ℤ) + (i : ℤ)

/-- One cell of the grid built by `monthly_calendar` in `app.py`. -/
structure Cell where
  date : ℤ
  in_month : Bool
  checked : Bool
deriving DecidableEq

/-- `monthly_calendar(habit, year, month)` from `app.py`, abstracted over
the set `checks` of check-in dates of the habit (the source builds that
set from `CheckIn.query.filter_by(habit_id=habit.id)`).  Each cell holds
the date, `in_month : d.month == month`, and `checked : d in checks`. -/
def monthly_calendar (checks : Finset ℤ) (year month : ℤ) : List (List Cell) :=
  (monthdatescalendar year month).map fun week =>
    week.map fun d =>
      { date := d
        in_month := (fromOrdinal d).month == month
        checked := decide (d ∈ checks) }

/-! ## `get_streak` -/

/-- `get_streak(habit, today)` from `app.py`, abstracted over the set
`checks` of check-in dates of the habit: walk backward one day at a time
from `today`, counting while the day is in `checks`. -/
def get_streak (checks : Finset ℤ) (today : ℤ) : ℕ :=
  if h : today ∈ checks then get_streak checks (today - 1) + 1 else 0
termination_by (checks.filter (fun x => x ≤ today)).card
decreasing_by
  apply Finset.card_lt_card
  rw [Finset.ssubset_def]
  refine ⟨Finset.monotone_filter_right checks (fun x hx => by omega), fun hsub => ?_⟩
  have h1 := hsub (Finset.mem_filter.2 ⟨h, le_refl _⟩)
  have h2 := (Finset.mem_filter.1 h1).2
  omega

/-! ## Application state

The three SQLite tables of `app.py` as lists of rows.  Auto-increment
primary keys are modelled by the `next…Id` counters.  Password hashing
(`werkzeug.security`) is an external collaborator and is passed in as a
function where needed. -/

/-- A row of the `user` table. -/
structure UserRow where
  id : ℕ
  email : String
  password_hash : String
  theme : String
deriving DecidableEq

/-- A row of the `habit` table. -/
structure HabitRow where
  id : ℕ
  name : String
  color : String
  user_id : ℕ
deriving DecidableEq

/-- A row of the `check_in` table (the surrogate primary key carries no
information, so it is omitted; rows are identified by position). -/
structure CheckInRow where
  habit_id : ℕ
  date : ℤ
deriving DecidableEq

/-- The database state. -/
structure DB where
  users : List UserRow
  habits : List HabitRow
  checkins : List CheckInRow
  nextUserId : ℕ
  nextHabitId : ℕ
deriving DecidableEq

/-- The state right after `db.create_all()`: three empty tables. -/
def initialDB : DB := ⟨[], [], [], 1, 1⟩

/-- The unique-key of a check-in row: the schema declares
`UniqueConstraint('habit_id', 'date')`. -/
def checkinKey (c : CheckInRow) : ℕ × ℤ := (c.habit_id, c.date)

/-- The `habit_checkin_unique` constraint: no two check-in rows share
(habit_id, date). -/
def checkinsUnique (db : DB) : Prop := (db.checkins.map checkinKey).Nodup

instance (db : DB) : Decidable (checkinsUnique db) := by
  unfold checkinsUnique; infer_instance

/-- The `user_habit_unique` constraint: no two habit rows share
(user_id, name). -/
def habitNamesUnique (db : DB) : Prop :=
  (db.habits.map fun h => (h.user_id, h.name)).Nodup

instance (db : DB) : Decidable (habitNamesUnique db) := by
  unfold habitNamesUnique; infer_instance

/-- Primary-key uniqueness of habit ids. -/
def habitIdsUnique (db : DB) : Prop := (db.habits.map HabitRow.id).Nodup

instance (db : DB) : Decidable (habitIdsUnique db) := by
  unfold habitIdsUnique; infer_instance

/-- `Habit.query.get(hid)`: look a habit up by primary key. -/
def findHabit (db : DB) (hid : ℕ) : Option HabitRow :=
  db.habits.find? fun h => h.id == hid

/-- Does a check-in row for `(hid, day)` exist?  (Row existence =
"done", per the data model.) -/
def checkedState (db : DB) (hid : ℕ) (day : ℤ) : Bool :=
  db.checkins.any fun c => c.habit_id == hid && c.date == day

/-! ## ISO date parsing

`date.fromisoformat` on the canonical `YYYY-MM-DD` form: exactly ten
characters, digits in the year/month/day positions, dashes at positions
4 and 7, and a valid Gregorian date with `MINYEAR = 1 <= year`.  Any
other string makes the Python call raise `ValueError`. -/

/-- Numeric value of a decimal digit character. -/
def digitVal (c : Char) : ℤ := (c.toNat : ℤ) - 48

/-- `date.fromisoformat(s)` for canonical `YYYY-MM-DD` strings;
`none` models the raised `ValueError`. -/
def fromisoformat? (s : String) : Option Ymd :=
  match s.toList with
  | [y1, y2, y3, y4, s1, m1, m2, s2, d1, d2] =>
    if (s1 == '-' && s2 == '-' &&
        (([y1, y2, y3, y4, m1, m2, d1, d2].all Char.isDigit) : Bool)) then
      let y := 1000 * digitVal y1 + 100 * digitVal y2 + 10 * digitVal y3 + digitVal y4
      let m := 10 * digitVal m1 + digitVal m2
      let d := 10 * digitVal d1 + digitVal d2
      if 1 ≤ y && 1 ≤ m && m ≤ 12 && 1 ≤ d && d ≤ daysInMonth y m then
        some ⟨y, m, d⟩
      else none
    else none
  | _ => none

/-! ## Request handlers

Each handler of `app.py` becomes a pure function `DB → … → Resp × DB`
(or `DB × flag`).  `uid` is the id of `current_user`; `Flask-Login`'s
session machinery is outside the model. -/

/-- Outcome of a handler: success, 404 from `get_or_404`, 403, or an
unhandled Python exception propagating out of the handler. -/
inductive Resp where
  | ok
  | notFound
  | forbidden
  | crash
deriving DecidableEq

/-- `signup` (POST branch): reject duplicate email with a flash, else
insert the user (with hashed password, default theme `light`) and log
them in.  `hash` stands for `werkzeug.security.generate_password_hash`. -/
def signup (db : DB) (hash : String → String) (email password : String) :
    DB × Bool :=
  if db.users.any (fun u => u.email == email) then (db, false)
  else
    ({ db with
        users := db.users ++ [⟨db.nextUserId, email, hash password, "light"⟩]
        nextUserId := db.nextUserId + 1 }, true)

/-- `login` (POST branch): pure query; `check` stands for
`werkzeug.security.check_password_hash`.  Returns whether the login
succeeded; the database is never modified. -/
def login (db : DB) (check : String → String → Bool) (email password : String) :
    Bool × DB :=
  match db.users.find? (fun u => u.email == email) with
  | some u => (check u.password_hash password, db)
  | none => (false, db)

/-- `create_habit`: `color = request.form.get('color', '#3b82f6')`; the
insert hits the `user_habit_unique` constraint exactly when a row with
the same (user_id, name) exists, in which case the session is rolled
back (state unchanged) and the flash reports the conflict.  The `Bool`
is `true` for the success flash. -/
def create_habit (db : DB) (uid : ℕ) (name : String) (color? : Option String) :
    DB × Bool :=
  let color := color?.getD "#3b82f6"
  if db.habits.any (fun h => h.user_id == uid && h.name == name) then
    (db, false)
  else
    ({ db with
        habits := db.habits ++ [⟨db.nextHabitId, name, color, uid⟩]
        nextHabitId := db.nextHabitId + 1 }, true)

/-- `delete_habit`: `get_or_404`, ownership check, then
`db.session.delete(habit)`.  No SQLAlchemy relationship exists between
`Habit` and `CheckIn` and SQLite foreign keys are not enabled, so the
delete removes only the habit row — the habit's check-in rows stay. -/
def delete_habit (db : DB) (uid : ℕ) (hid : ℕ) : Resp × DB :=
  match findHabit db hid with
  | none => (.notFound, db)
  | some h =>
    if h.user_id ≠ uid then (.forbidden, db)
    else (.ok, { db with habits := db.habits.filter (fun x => x.id ≠ hid) })

/-- Delete the first row matching `(hid, day)` — the row returned by
`CheckIn.query.filter_by(...).first()`. -/
def eraseFirstCheckin : List CheckInRow → ℕ → ℤ → List CheckInRow
  | [], _, _ => []
  | c :: rest, hid, day =>
    if c.habit_id == hid && c.date == day then rest
    else c :: eraseFirstCheckin rest hid day

/-- `toggle`: parse `habit_id` (`None` on missing/non-integer form
field) and `day` (`date.fromisoformat` raises on bad input — `crash`),
`get_or_404` the habit, check ownership, then delete-if-present /
insert-if-absent the `(habit_id, day)` check-in row. -/
def toggle (db : DB) (uid : ℕ) (habitId? : Option ℕ) (dayStr : String) :
    Resp × DB :=
  match fromisoformat? dayStr with
  | none => (.crash, db)
  | some ymd =>
    let day := ymd.toOrd
    match habitId? with
    | none => (.notFound, db)
    | some hid =>
      match findHabit db hid with
      | none => (.notFound, db)
      | some h =>
        if h.user_id ≠ uid then (.forbidden, db)
        else if checkedState db hid day then
          (.ok, { db with checkins := eraseFirstCheckin db.checkins hid day })
        else
          (.ok, { db with checkins := db.checkins ++ [⟨hid, day⟩] })

/-- `toggle_theme`: flip the current user's theme
(`'light' if theme == 'dark' else 'dark'`). -/
def toggle_theme (db : DB) (uid : ℕ) : DB :=
  { db with
      users := db.users.map fun u =>
        if u.id == uid then
          { u with theme := if u.theme == "dark" then "light" else "dark" }
        else u }

/-! ## Weekly analytics (`analytics_json`) -/

/-- `[today - timedelta(days=i) for i in reversed(range(7))]`:
the 7 days ending at `today`, oldest first. -/
def weekDays (today : ℤ) : List ℤ :=
  (List.range 7).reverse.map fun i => today - (i : ℤ)

/-- `d.strftime('%a')` (C locale): short weekday abbreviation. -/
def dayAbbrev (o : ℤ) : String :=
  ["Mon", "Tue", "Wed", "Thu", "Fri", "Sat", "Sun"].getD (weekday o).toNat ""

/-- The `labels` list of `analytics_json`. -/
def analytics_labels (today : ℤ) : List String :=
  (weekDays today).map dayAbbrev

/-- `CheckIn.query.join(Habit).filter(Habit.user_id == uid,
CheckIn.date == d).count()`: the number of (check-in, habit) join pairs
with `habit.id = checkin.habit_id`. -/
def countJoin (db : DB) (uid : ℕ) (d : ℤ) : ℕ :=
  ((db.checkins.filter fun c => c.date == d).map fun c =>
    (db.habits.filter fun h => h.id == c.habit_id && h.user_id == uid).length).sum

/-- The `counts` list of `analytics_json`. -/
def analytics_counts (db : DB) (uid : ℕ) (today : ℤ) : List ℕ :=
  (weekDays today).map (countJoin db uid)

/-- Does the account `uid` own the habit with id `hid`? -/
def isOwned (db : DB) (uid hid : ℕ) : Bool :=
  db.habits.any fun h => h.id == hid && h.user_id == uid

/-- The number of check-in rows of account `uid`'s habits dated exactly
`d` (the specification's reading of `WeeklyCounts`). -/
def ownedCountOn (db : DB) (uid : ℕ) (d : ℤ) : ℕ :=
  db.checkins.countP fun c => c.date == d && isOwned db uid c.habit_id

/-- A small concrete database used to instantiate the theorems below:
one account (id 1) owning one habit (id 1), no check-ins yet. -/
def wDB : DB :=
  ⟨[⟨1, "a@b.c", "h", "light"⟩], [⟨1, "run", "#3b82f6", 1⟩], [], 2, 2⟩

/-- A concrete database with two accounts and some check-ins, used to
instantiate the weekly-analytics theorem. -/
def wDB5 : DB :=
  ⟨[⟨1, "a@b.c", "h", "light"⟩, ⟨2, "d@e.f", "h", "light"⟩],
    [⟨1, "run", "#3b82f6", 1⟩, ⟨2, "read", "#fff", 2⟩],
    [⟨1, 100⟩, ⟨1, 99⟩, ⟨2, 100⟩, ⟨1, 90⟩], 3, 3⟩

/-! ## Lemmas about check-in rows and `toggle` -/

theorem checkedState_eq_false {db : DB} {hid : ℕ} {day : ℤ} :
    checkedState db hid day = false ↔
      ∀ c ∈ db.checkins, ¬(c.habit_id = hid ∧ c.date = day) := by
  simp [checkedState, List.any_eq_false]

theorem eraseFirstCheckin_sublist (l : List CheckInRow) (hid : ℕ) (day : ℤ) :
    (eraseFirstCheckin l hid day).Sublist l := by
  induction l with
  | nil => simp [eraseFirstCheckin]
  | cons c rest ih =>
    rw [eraseFirstCheckin]
    split
    · exact List.sublist_cons_self c rest
    · exact ih.cons₂ c

/-- Appending past a run of non-matching rows commutes with
`eraseFirstCheckin`. -/
theorem eraseFirstCheckin_append {l : List CheckInRow} {hid : ℕ} {day : ℤ}
    (h : ∀ c ∈ l, ¬(c.habit_id = hid ∧ c.date = day)) (m : List CheckInRow) :
    eraseFirstCheckin (l ++ m) hid day = l ++ eraseFirstCheckin m hid day := by
  induction l with
  | nil => simp
  | cons c rest ih =>
    have hc := h c (List.mem_cons_self c rest)
    rw [List.cons_append, eraseFirstCheckin, if_neg (by simpa using hc),
      ih (fun x hx => h x (List.mem_cons_of_mem c hx)), List.cons_append]

/-- With unique (habit_id, date) keys, after deleting the first matching
row no matching row remains. -/
theorem eraseFirstCheckin_no_match {l : List CheckInRow} {hid : ℕ} {day : ℤ}
    (hnd : (l.map checkinKey).Nodup) :
    ∀ c ∈ eraseFirstCheckin l hid day, ¬(c.habit_id = hid ∧ c.date = day) := by
  induction l with
  | nil => simp [eraseFirstCheckin]
  | cons c rest ih =>
    rw [List.map_cons, List.nodup_cons] at hnd
    rw [eraseFirstCheckin]
    split
    · rename_i hmatch
      simp only [Bool.and_eq_true, beq_iff_eq] at hmatch
      intro x hx hxm
      apply hnd.1
      have hk : checkinKey x = checkinKey c := by
        simp [checkinKey, hmatch.1, hmatch.2, hxm.1, hxm.2]
      exact hk ▸ List.mem_map_of_mem checkinKey hx
    · rename_i hmatch
      intro x hx
      rcases List.mem_cons.1 hx with rfl | hx'
      · simp only [Bool.and_eq_true, beq_iff_eq] at hmatch
        tauto
      · exact ih hnd.2 x hx'

/-- Reduction of `toggle` on the happy path: habit present and owned,
date valid. -/
theorem toggle_owned {db : DB} {uid hid : ℕ} {s : String} {h : HabitRow}
    {ymd : Ymd} (hparse : fromisoformat? s = some ymd)
    (hfind : findHabit db hid = some h) (hown : h.user_id = uid) :
    toggle db uid (some hid) s =
      if checkedState db hid ymd.toOrd then
        (.ok, { db with checkins := eraseFirstCheckin db.checkins hid ymd.toOrd })
      else
        (.ok, { db with checkins := db.checkins ++ [⟨hid, ymd.toOrd⟩] }) := by
  simp only [toggle, hparse, hfind, hown, ne_eq, not_true_eq_false, if_false,
    ite_false]

/-- The database after the insert branch of `toggle` still has
duplicate-free (habit_id, date) keys. -/
theorem insert_checkin_nodup {db : DB} {hid : ℕ} {day : ℤ}
    (hinv : checkinsUnique db) (hc : checkedState db hid day = false) :
    checkinsUnique { db with checkins := db.checkins ++ [⟨hid, day⟩] } := by
  unfold checkinsUnique at hinv ⊢
  simp only [List.map_append, List.map_cons, List.map_nil]
  rw [List.nodup_append]
  refine ⟨hinv, List.nodup_singleton _, ?_⟩
  intro k hk hk1
  simp only [List.mem_singleton] at hk1
  obtain ⟨c, hcmem, hck⟩ := List.mem_map.1 hk
  rw [checkedState_eq_false] at hc
  apply hc c hcmem
  have hkey : checkinKey c = (hid, day) := by rw [hck, hk1]; rfl
  simp only [checkinKey, Prod.mk.injEq] at hkey
  exact ⟨hkey.1, hkey.2⟩

/-- Every branch of `toggle` keeps the (habit_id, date) keys duplicate
free. -/
theorem toggle_preserves_checkinsUnique (db : DB) (uid : ℕ)
    (habitId? : Option ℕ) (s : String) (hinv : checkinsUnique db) :
    checkinsUnique (toggle db uid habitId? s).2 := by
  rcases hp : fromisoformat? s with _ | ymd
  · simp only [toggle, hp]
    exact hinv
  · rcases habitId? with _ | hid
    · simp only [toggle, hp]
      exact hinv
    · rcases hf : findHabit db hid with _ | h
      · simp only [toggle, hp, hf]
        exact hinv
      · by_cases ho : h.user_id = uid
        · rw [toggle_owned hp hf ho]
          by_cases hc : checkedState db hid ymd.toOrd = true
          · simp only [hc, if_true]
            exact ((eraseFirstCheckin_sublist db.checkins hid ymd.toOrd).map
              checkinKey).nodup hinv
          · rw [if_neg hc]
            exact insert_checkin_nodup hinv (by simpa using hc)
        · simp only [toggle, hp, hf, ho]
          simp [ho]
          exact hinv

theorem create_habit_checkins (db : DB) (uid : ℕ) (name : String)
    (color? : Option String) :
    ((create_habit db uid name color?).1).checkins = db.checkins := by
  unfold create_habit
  split <;> rfl

theorem delete_habit_checkins (db : DB) (uid hid : ℕ) :
    ((delete_habit db uid hid).2).checkins = db.checkins := by
  unfold delete_habit
  rcases findHabit db hid with _ | h
  · rfl
  · dsimp only
    split <;> rfl

theorem signup_checkins (db : DB) (hash : String → String)
    (email password : String) :
    ((signup db hash email password).1).checkins = db.checkins := by
  unfold signup
  split <;> rfl

theorem login_db (db : DB) (check : String → String → Bool)
    (email password : String) : (login db check email password).2 = db := by
  cases hf : db.users.find? (fun u => u.email == email) <;> simp [login, hf]

theorem toggle_theme_checkins (db : DB) (uid : ℕ) :
    (toggle_theme db uid).checkins = db.checkins := rfl

/-- With the `user_habit_unique` constraint, an existing (uid, name)
habit is stored exactly once. -/
theorem countP_pair_eq_one :
    ∀ (l : List HabitRow), ((l.map fun h => (h.user_id, h.name)).Nodup) →
      ∀ (uid : ℕ) (name : String), (∃ h ∈ l, h.user_id = uid ∧ h.name = name) →
        l.countP (fun h => h.user_id == uid && h.name == name) = 1 := by
  intro l
  induction l with
  | nil => simp
  | cons a t ih =>
    intro hnd uid name hex
    rw [List.map_cons, List.nodup_cons] at hnd
    by_cases ha : a.user_id = uid ∧ a.name = name
    · rw [List.countP_cons_of_pos _ _ (by simp [ha.1, ha.2])]
      have ht : t.countP (fun h => h.user_id == uid && h.name == name) = 0 := by
        rw [List.countP_eq_zero]
        intro x hmem hxm
        simp only [Bool.and_eq_true, beq_iff_eq] at hxm
        apply hnd.1
        have : (a.user_id, a.name) = (x.user_id, x.name) := by
          rw [ha.1, ha.2, hxm.1, hxm.2]
        exact this ▸ List.mem_map_of_mem _ hmem
      rw [ht]
    · rw [List.countP_cons_of_neg _ _ (by
        simp only [Bool.and_eq_true, beq_iff_eq]
        exact ha)]
      apply ih hnd.2
      rcases hex with ⟨h, hm, hp⟩
      rcases List.mem_cons.1 hm with rfl | hm'
      · exact absurd hp ha
      · exact ⟨h, hm', hp⟩

/-! ## Lemmas for the weekly analytics -/

theorem weekDays_eq (today : ℤ) :
    weekDays today = [today - 6, today - 5, today - 4, today - 3, today - 2,
      today - 1, today] := by
  simp only [weekDays, List.range_succ, List.range_zero]
  norm_num

/-- With unique habit ids, the habit-side filter of the analytics join
has length 1 or 0 according to ownership. -/
theorem countP_habit_filter (uid hid : ℕ) :
    ∀ (l : List HabitRow), (l.map HabitRow.id).Nodup →
      (l.countP fun h => h.id == hid && h.user_id == uid) =
        if l.any (fun h => h.id == hid && h.user_id == uid) then 1 else 0 := by
  intro l
  induction l with
  | nil => simp
  | cons a t ih =>
    intro hnd
    rw [List.map_cons, List.nodup_cons] at hnd
    by_cases pa : (a.id == hid && a.user_id == uid) = true
    · have ht : (t.countP fun h => h.id == hid && h.user_id == uid) = 0 := by
        rw [List.countP_eq_zero]
        intro x hx hxm
        simp only [Bool.and_eq_true, beq_iff_eq] at pa hxm
        exact hnd.1 (by
          have hax : a.id = x.id := by rw [pa.1, hxm.1]
          exact hax ▸ List.mem_map_of_mem HabitRow.id hx)
      rw [List.countP_cons, List.any_cons, ht, pa]
      simp
    · have pa' : (a.id == hid && a.user_id == uid) = false := by
        simpa using pa
      rw [List.countP_cons, List.any_cons, pa', ih hnd.2]
      simp

/-- Summing an indicator over a list counts the satisfying elements. -/
theorem sum_map_indicator {α : Type} (p : α → Bool) :
    ∀ l : List α, (l.map fun a => if p a then 1 else 0).sum = l.countP p := by
  intro l
  induction l with
  | nil => simp
  | cons a t ih =>
    rw [List.map_cons, List.sum_cons, List.countP_cons, ih]
    omega

/-- Pointwise sums of mapped lists split. -/
theorem sum_map_add {α : Type} (f g : α → ℕ) :
    ∀ l : List α, (l.map fun a => f a + g a).sum = (l.map f).sum + (l.map g).sum := by
  intro l
  induction l with
  | nil => simp
  | cons a t ih =>
    simp only [List.map_cons, List.sum_cons, ih]
    omega

/-- Over a duplicate-free list of days, the indicator of "this row's
date is day `d`" sums to the indicator of membership. -/
theorem sum_indicator_day (c : CheckInRow) (q : Bool) :
    ∀ ds : List ℤ, ds.Nodup →
      (ds.map fun d => if (c.date == d && q) = true then 1 else 0).sum =
        if (q && ds.contains c.date) = true then 1 else 0 := by
  intro ds
  induction ds with
  | nil => simp
  | cons d rest ih =>
    intro hnd
    rw [List.nodup_cons] at hnd
    rw [List.map_cons, List.sum_cons, ih hnd.2, List.contains_cons]
    by_cases hd : c.date = d
    · subst hd
      have hrest : rest.contains c.date = false := by
        rw [← Bool.not_eq_true, List.contains_iff_exists_mem_beq]
        rintro ⟨x, hx, hbeq⟩
        rw [beq_iff_eq] at hbeq
        exact hnd.1 (hbeq ▸ hx)
      rw [hrest]
      cases q <;> simp
    · have hbeq : (c.date == d) = false := by simpa using hd
      rw [hbeq]
      simp

/-- Splitting a per-day count over a duplicate-free day list gives the
count over the whole window. -/
theorem sum_countP_days (p : CheckInRow → Bool) (ds : List ℤ) (hnd : ds.Nodup) :
    ∀ l : List CheckInRow,
      (ds.map fun d => l.countP fun c => c.date == d && p c).sum =
        l.countP fun c => p c && ds.contains c.date := by
  intro l
  induction l with
  | nil => simp
  | cons c t ih =>
    have hsplit : (ds.map fun d => (c :: t).countP fun x => x.date == d && p x) =
        ds.map fun d => ((t.countP fun x => x.date == d && p x) +
          if (c.date == d && p c) = true then 1 else 0) := by
      apply List.map_congr_left
      intro d _
      rw [List.countP_cons]
    rw [hsplit, sum_map_add, ih, List.countP_cons, sum_indicator_day c (p c) ds hnd]

/-- The SQL join count of `analytics_json` equals the per-day check-in
count of the account's habits, given unique habit primary keys. -/
theorem countJoin_eq_ownedCountOn (db : DB) (uid : ℕ) (d : ℤ)
    (hids : habitIdsUnique db) : countJoin db uid d = ownedCountOn db uid d := by
  unfold countJoin ownedCountOn
  have hmap : ((db.checkins.filter fun c => c.date == d).map fun c =>
      (db.habits.filter fun h => h.id == c.habit_id && h.user_id == uid).length) =
      (db.checkins.filter fun c => c.date == d).map fun c =>
        if isOwned db uid c.habit_id then 1 else 0 := by
    apply List.map_congr_left
    intro c _
    rw [← List.countP_eq_length_filter, countP_habit_filter uid c.habit_id db.habits hids]
    rfl
  rw [hmap, sum_map_indicator, List.countP_filter]
  apply List.countP_congr
  intro c _
  constructor <;> (intro hcc; simp only [Bool.and_eq_true] at *; exact ⟨hcc.2, hcc.1⟩)

/-! ## Lemmas about the monthly calendar grid -/

theorem daysInMonth_bounds (y m : ℤ) (hm1 : 1 ≤ m) (hm2 : m ≤ 12) :
    28 ≤ daysInMonth y m ∧ daysInMonth y m ≤ 31 := by
  interval_cases m <;>
    · simp only [daysInMonth, monthLengths]
      split <;> decide

theorem gridWeeks_bounds (y m : ℤ) (hm1 : 1 ≤ m) (hm2 : m ≤ 12) :
    4 ≤ gridWeeks y m ∧ gridWeeks y m ≤ 6 := by
  obtain ⟨hb1, hb2⟩ := daysInMonth_bounds y m hm1 hm2
  unfold gridWeeks weekday
  omega

/-- The whole grid is one run of consecutive dates: its last cell is the
last trailing day completing the final week. -/
theorem gridSpan (y m : ℤ) (hm1 : 1 ≤ m) (hm2 : m ≤ 12) :
    gridStart y m + 7 * (gridWeeks y m : ℤ) =
      toOrdinal y m 1 + daysInMonth y m +
        (6 - weekday (toOrdinal y m 1) - daysInMonth y m) % 7 := by
  obtain ⟨hb1, hb2⟩ := daysInMonth_bounds y m hm1 hm2
  unfold gridStart gridWeeks weekday
  omega

theorem monthly_calendar_length (checks : Finset ℤ) (y m : ℤ) :
    (monthly_calendar checks y m).length = gridWeeks y m := by
  unfold monthly_calendar monthdatescalendar
  rw [List.length_map, List.length_map, List.length_range]

theorem monthly_calendar_row_length (checks : Finset ℤ) (y m : ℤ) :
    ∀ week ∈ monthly_calendar checks y m, week.length = 7 := by
  intro week hw
  unfold monthly_calendar monthdatescalendar at hw
  rw [List.map_map, List.mem_map] at hw
  obtain ⟨w, _, rfl⟩ := hw
  simp only [Function.comp_apply]
  rw [List.length_map, List.length_map, List.length_range]

/-- Every cell of the grid: its flags are computed from its date, and
its date lies in the grid's window of consecutive days. -/
theorem monthly_calendar_cell (checks : Finset ℤ) (y m : ℤ) :
    ∀ week ∈ monthly_calendar checks y m, ∀ cell ∈ week,
      cell.checked = decide (cell.date ∈ checks) ∧
      cell.in_month = ((fromOrdinal cell.date).month == m) ∧
      gridStart y m ≤ cell.date ∧
      cell.date < gridStart y m + 7 * (gridWeeks y m : ℤ) := by
  intro week hw cell hc
  simp only [monthly_calendar, List.mem_map] at hw
  obtain ⟨row, hrow, rfl⟩ := hw
  simp only [List.mem_map] at hc
  obtain ⟨d, hd, rfl⟩ := hc
  simp only [monthdatescalendar, List.mem_map, List.mem_range] at hrow
  obtain ⟨w, hwmem, rfl⟩ := hrow
  simp only [List.mem_map, List.mem_range] at hd
  obtain ⟨i, hi, rfl⟩ := hd
  refine ⟨rfl, rfl, ?_, ?_⟩ <;>
    · dsimp only
      omega

theorem isLeap_iff (y : ℤ) :
    isLeap y = true ↔ (y % 4 = 0 ∧ (y % 100 ≠ 0 ∨ y % 400 = 0)) := by
  simp [isLeap]

theorem monthLengths_sum (y : ℤ) : (monthLengths y).sum = daysInYear y := by
  cases h : isLeap y <;> simp [monthLengths, daysInYear, h]

theorem scan_dec31_leap :
    monthFromDayOfYear [31, 29, 31, 30, 31, 30, 31, 31, 30, 31, 30, 31] 1 365 =
      (12, 31) := by
  decide

/-- Digit extraction of the `_ord2ymd` cascade on a day that is not the
last day of a leap year. -/
theorem cascade_digits (c c1 c2 s2 k N : ℤ) (h1 : 0 ≤ c1) (h2 : c1 ≤ 3)
    (h3 : 0 ≤ c2) (h4 : c2 ≤ 24) (h5 : 0 ≤ s2) (h6 : s2 ≤ 3) (hk0 : 0 ≤ k)
    (hklt : k ≤ 364)
    (hNval : N = 146097 * c + 36524 * c1 + 1461 * c2 + 365 * s2 + k) :
    N / 146097 = c ∧ N % 146097 / 36524 = c1 ∧ N % 146097 % 36524 / 1461 = c2 ∧
    N % 146097 % 36524 % 1461 / 365 = s2 ∧ N % 146097 % 36524 % 1461 % 365 = k := by
  have e1 : N / 146097 = c ∧
      N % 146097 = 36524 * c1 + 1461 * c2 + 365 * s2 + k := by omega
  have e2 : (36524 * c1 + 1461 * c2 + 365 * s2 + k) / 36524 = c1 ∧
      (36524 * c1 + 1461 * c2 + 365 * s2 + k) % 36524 =
        1461 * c2 + 365 * s2 + k := by omega
  have e3 : (1461 * c2 + 365 * s2 + k) / 1461 = c2 ∧
      (1461 * c2 + 365 * s2 + k) % 1461 = 365 * s2 + k := by omega
  have e4 : (365 * s2 + k) / 365 = s2 ∧ (365 * s2 + k) % 365 = k := by omega
  refine ⟨e1.1, ?_, ?_, ?_, ?_⟩
  · rw [e1.2]
    exact e2.1
  · rw [e1.2, e2.2]
    exact e3.1
  · rw [e1.2, e2.2, e3.2]
    exact e4.1
  · rw [e1.2, e2.2, e3.2]
    exact e4.2

/-- On the last day (k = 365) of a leap year the cascade takes the
fixup branch and `year - 1` is the true year. -/
theorem cascade_fixup (c c1 c2 s2 N : ℤ) (h1 : 0 ≤ c1) (h2 : c1 ≤ 3)
    (h3 : 0 ≤ c2) (h4 : c2 ≤ 24) (h5 : 0 ≤ s2) (h6 : s2 ≤ 3) (hs : s2 = 3)
    (hcc : c2 ≤ 23 ∨ (c2 = 24 ∧ c1 = 3))
    (hNval : N = 146097 * c + 36524 * c1 + 1461 * c2 + 365 * s2 + 365) :
    (N % 146097 % 36524 % 1461 / 365 = 4 ∨ N % 146097 / 36524 = 4) ∧
    N / 146097 * 400 + N % 146097 / 36524 * 100 + N % 146097 % 36524 / 1461 * 4 +
      N % 146097 % 36524 % 1461 / 365 + 1 - 1 =
      400 * c + 100 * c1 + 4 * c2 + s2 + 1 := by
  subst hs
  rcases hcc with hc | ⟨hc2, hc1⟩
  · have e1 : N / 146097 = c ∧
        N % 146097 = 36524 * c1 + 1461 * c2 + 1460 := by omega
    have e2 : (36524 * c1 + 1461 * c2 + 1460) / 36524 = c1 ∧
        (36524 * c1 + 1461 * c2 + 1460) % 36524 = 1461 * c2 + 1460 := by omega
    have e3 : (1461 * c2 + 1460) / 1461 = c2 ∧
        (1461 * c2 + 1460) % 1461 = 1460 := by omega
    constructor
    · left
      rw [e1.2, e2.2, e3.2]
      decide
    · rw [e1.1, e1.2, e2.1, e2.2, e3.1, e3.2]
      omega
  · subst hc2
    subst hc1
    have e1 : N / 146097 = c ∧ N % 146097 = 146096 := by omega
    constructor
    · right
      rw [e1.2]
      decide
    · rw [e1.1, e1.2]
      omega

/-- `daysBeforeYear` in terms of the 400/100/4-year digit decomposition
of `y - 1`. -/
theorem daysBeforeYear_decomp (y c c1 c2 s2 k N : ℤ) (h1 : 0 ≤ c1) (h2 : c1 ≤ 3)
    (h3 : 0 ≤ c2) (h4 : c2 ≤ 24) (h5 : 0 ≤ s2) (h6 : s2 ≤ 3)
    (hy : y - 1 = 400 * c + 100 * c1 + 4 * c2 + s2)
    (hNdef : N = (y - 1) * 365 + (y - 1) / 4 - (y - 1) / 100 + (y - 1) / 400 + k) :
    N = 146097 * c + 36524 * c1 + 1461 * c2 + 365 * s2 + k := by
  omega

/-- A leap year ends its 4-year block, and ends a century block only at
the end of a 400-year cycle. -/
theorem leap_decomp (y c c1 c2 s2 : ℤ) (h1 : 0 ≤ c1) (h2 : c1 ≤ 3)
    (h3 : 0 ≤ c2) (h4 : c2 ≤ 24) (h5 : 0 ≤ s2) (h6 : s2 ≤ 3)
    (hy : y - 1 = 400 * c + 100 * c1 + 4 * c2 + s2)
    (hlp : y % 4 = 0 ∧ (y % 100 ≠ 0 ∨ y % 400 = 0)) :
    s2 = 3 ∧ (c2 ≤ 23 ∨ (c2 = 24 ∧ c1 = 3)) := by
  omega

/-- Correctness of the `_ord2ymd` divmod cascade: the ordinal "days
before year `y`, plus one, plus a 0-based day-of-year `k`" comes back as
year `y` with the month scan applied to `k`. -/
theorem fromOrdinal_dayOfYear (y k : ℤ) (hk0 : 0 ≤ k) (hk : k < daysInYear y) :
    fromOrdinal (daysBeforeYear y + 1 + k) =
      ⟨y, (monthFromDayOfYear (monthLengths y) 1 k).1,
        (monthFromDayOfYear (monthLengths y) 1 k).2⟩ := by
  have hIff := isLeap_iff y
  have hk366 : k < 366 := by
    unfold daysInYear at hk
    split at hk <;> omega
  simp only [fromOrdinal, daysBeforeYear]
  rw [show (y - 1) * 365 + (y - 1) / 4 - (y - 1) / 100 + (y - 1) / 400 + 1 + k - 1 =
      (y - 1) * 365 + (y - 1) / 4 - (y - 1) / 100 + (y - 1) / 400 + k from by ring]
  set N : ℤ := (y - 1) * 365 + (y - 1) / 4 - (y - 1) / 100 + (y - 1) / 400 + k with hN
  obtain ⟨c, c1, c2, s2, hy, hb1, hb2, hb3, hb4, hb5, hb6⟩ :
      ∃ c c1 c2 s2 : ℤ, y - 1 = 400 * c + 100 * c1 + 4 * c2 + s2 ∧
        0 ≤ c1 ∧ c1 ≤ 3 ∧ 0 ≤ c2 ∧ c2 ≤ 24 ∧ 0 ≤ s2 ∧ s2 ≤ 3 :=
    ⟨(y - 1) / 400, (y - 1) % 400 / 100, (y - 1) % 400 % 100 / 4,
      (y - 1) % 400 % 100 % 4, by omega, by omega, by omega, by omega, by omega,
      by omega, by omega⟩
  have hNval : N = 146097 * c + 36524 * c1 + 1461 * c2 + 365 * s2 + k :=
    daysBeforeYear_decomp y c c1 c2 s2 k N hb1 hb2 hb3 hb4 hb5 hb6 hy hN
  by_cases hklt : k ≤ 364
  · have hcas := cascade_digits c c1 c2 s2 k N hb1 hb2 hb3 hb4 hb5 hb6 hk0 hklt hNval
    rw [if_neg (by
      simp only [Bool.or_eq_true, beq_iff_eq, not_or]
      constructor <;> omega)]
    have hyear : N / 146097 * 400 + N % 146097 / 36524 * 100 +
        N % 146097 % 36524 / 1461 * 4 + N % 146097 % 36524 % 1461 / 365 + 1 = y := by
      rw [hcas.1, hcas.2.1, hcas.2.2.1, hcas.2.2.2.1]
      omega
    rw [hyear, hcas.2.2.2.2]
  · have hk5 : k = 365 := by omega
    subst hk5
    have hl : isLeap y = true := by
      by_contra hns
      have hns' : isLeap y = false := eq_false_of_ne_true hns
      unfold daysInYear at hk
      rw [hns'] at hk
      simp at hk
    have hlp : y % 4 = 0 ∧ (y % 100 ≠ 0 ∨ y % 400 = 0) := hIff.1 hl
    obtain ⟨hs23, hcc⟩ := leap_decomp y c c1 c2 s2 hb1 hb2 hb3 hb4 hb5 hb6 hy hlp
    have hfx := cascade_fixup c c1 c2 s2 N hb1 hb2 hb3 hb4 hb5 hb6 hs23 hcc
      (by rw [hNval, hs23])
    rw [if_pos (by
      simp only [Bool.or_eq_true, beq_iff_eq]
      exact hfx.1)]
    have hml : monthLengths y = [31, 29, 31, 30, 31, 30, 31, 31, 30, 31, 30, 31] := by
      simp [monthLengths, hl]
    rw [Ymd.mk.injEq, hml, scan_dec31_leap]
    refine ⟨?_, rfl, rfl⟩
    rw [hfx.2]
    omega

/-- The month scan is correct: starting day `day` of the month at index
`j` (0-based) corresponds to day-of-year `(take j).sum + day - 1`. -/
theorem monthFromDayOfYear_take :
    ∀ (ls : List ℤ), (∀ x ∈ ls, 0 < x) →
      ∀ (j : ℕ) (hj : j < ls.length) (m0 day : ℤ), 1 ≤ day →
        day ≤ ls.get ⟨j, hj⟩ →
        monthFromDayOfYear ls m0 ((ls.take j).sum + day - 1) =
          (m0 + (j : ℤ), day) := by
  intro ls
  induction ls with
  | nil =>
    intro _ j hj
    exact absurd hj (by simp)
  | cons len rest ih =>
    intro hpos j hj m0 day hd1 hd2
    cases j with
    | zero =>
      simp only [List.take_zero, List.sum_nil, zero_add]
      have hle : day ≤ len := by simpa using hd2
      rw [monthFromDayOfYear, if_pos (by omega)]
      refine Prod.ext ?_ ?_ <;> simp
    | succ j' =>
      have hlen : 0 < len := hpos len (List.mem_cons_self _ _)
      have hsnn : 0 ≤ (rest.take j').sum :=
        List.sum_nonneg fun x hx =>
          le_of_lt (hpos x (List.mem_cons_of_mem _ (List.mem_of_mem_take hx)))
      rw [List.take_succ_cons, List.sum_cons, monthFromDayOfYear,
        if_neg (by omega),
        show len + (rest.take j').sum + day - 1 - len =
          (rest.take j').sum + day - 1 from by ring]
      rw [ih (fun x hx => hpos x (List.mem_cons_of_mem _ hx)) j'
        (by simpa using hj) (m0 + 1) day hd1 (by simpa using hd2)]
      refine Prod.ext ?_ ?_ <;> simp
      omega

/-- All month lengths are positive. -/
theorem monthLengths_pos (y : ℤ) : ∀ x ∈ monthLengths y, 0 < x := by
  intro x hx
  cases hl : isLeap y <;> simp [monthLengths, hl] at hx <;> omega

theorem monthLengths_length (y : ℤ) : (monthLengths y).length = 12 := by
  cases hl : isLeap y <;> simp [monthLengths, hl]

theorem daysBeforeMonth_nonneg (y m : ℤ) : 0 ≤ daysBeforeMonth y m :=
  List.sum_nonneg fun x hx =>
    le_of_lt (monthLengths_pos y x (List.mem_of_mem_take hx))

/-- The full round trip `date.fromordinal(date(y, m, d).toordinal())`
returns `(y, m, d)` for every valid proleptic-Gregorian date. -/
theorem fromOrdinal_toOrdinal (y m d : ℤ) (hm1 : 1 ≤ m) (hm2 : m ≤ 12)
    (hd1 : 1 ≤ d) (hd2 : d ≤ daysInMonth y m) :
    fromOrdinal (toOrdinal y m d) = ⟨y, m, d⟩ := by
  have hj : m.toNat - 1 < (monthLengths y).length := by
    rw [monthLengths_length]
    omega
  have hget : (monthLengths y).get ⟨m.toNat - 1, hj⟩ = daysInMonth y m := by
    rw [daysInMonth, List.getD_eq_getElem?_getD, List.getElem?_eq_getElem hj]
    rfl
  have hk0 : 0 ≤ daysBeforeMonth y m + d - 1 := by
    have := daysBeforeMonth_nonneg y m
    omega
  have hkless : daysBeforeMonth y m + d - 1 < daysInYear y := by
    have hsplit : ((monthLengths y).take (m.toNat - 1)).sum +
        ((monthLengths y).drop (m.toNat - 1)).sum = (monthLengths y).sum := by
      rw [← List.sum_append, List.take_append_drop]
    have hdrop : (monthLengths y).drop (m.toNat - 1) =
        (monthLengths y).get ⟨m.toNat - 1, hj⟩ ::
          (monthLengths y).drop (m.toNat - 1 + 1) :=
      List.drop_eq_get_cons hj
    have hdnn : 0 ≤ ((monthLengths y).drop (m.toNat - 1 + 1)).sum :=
      List.sum_nonneg fun x hx =>
        le_of_lt (monthLengths_pos y x (List.mem_of_mem_drop hx))
    have hsum := monthLengths_sum y
    rw [hdrop, List.sum_cons, hget] at hsplit
    unfold daysBeforeMonth
    omega
  have hday := fromOrdinal_dayOfYear y (daysBeforeMonth y m + d - 1) hk0 hkless
  have hscan := monthFromDayOfYear_take (monthLengths y) (monthLengths_pos y)
    (m.toNat - 1) hj 1 d hd1 (hget ▸ hd2)
  rw [show toOrdinal y m d = daysBeforeYear y + 1 + (daysBeforeMonth y m + d - 1)
    from by unfold toOrdinal; ring]
  rw [hday,
    show daysBeforeMonth y m + d - 1 =
      ((monthLengths y).take (m.toNat - 1)).sum + d - 1 from rfl,
    hscan, Ymd.mk.injEq]
  refine ⟨rfl, ?_, rfl⟩
  omega

theorem daysBeforeMonth_succ (y m : ℤ) (hm1 : 1 ≤ m) (hm2 : m ≤ 11) :
    daysBeforeMonth y (m + 1) = daysBeforeMonth y m + daysInMonth y m := by
  interval_cases m <;>
    · cases hl : isLeap y <;>
        simp [daysBeforeMonth, daysInMonth, monthLengths, hl]

theorem daysBeforeYear_succ (y : ℤ) :
    daysBeforeYear (y + 1) = daysBeforeYear y + daysInYear y := by
  have hIff := isLeap_iff y
  unfold daysBeforeYear daysInYear
  cases hl : isLeap y
  · rw [hl] at hIff
    have hnl : ¬(y % 4 = 0 ∧ (y % 100 ≠ 0 ∨ y % 400 = 0)) := by
      rw [← hIff]
      simp
    simp only [Bool.false_eq_true, if_false]
    omega
  · rw [hl] at hIff
    have hlp := hIff.1 rfl
    simp only [if_true]
    omega

theorem toOrdinal_jan (y : ℤ) :
    toOrdinal (y + 1) 1 1 = toOrdinal y 12 1 + daysInMonth y 12 := by
  unfold toOrdinal
  rw [daysBeforeYear_succ]
  have h12 : daysBeforeMonth y 12 + daysInMonth y 12 = daysInYear y := by
    cases hl : isLeap y <;>
      simp [daysBeforeMonth, daysInMonth, monthLengths, daysInYear, hl]
  have h1 : daysBeforeMonth (y + 1) 1 = 0 := by
    simp [daysBeforeMonth]
  omega

/-- A day inside the target month comes back from `fromordinal` as that
month. -/
theorem fromOrdinal_month_in (y m o : ℤ) (hm1 : 1 ≤ m) (hm2 : m ≤ 12)
    (h1 : toOrdinal y m 1 ≤ o) (h2 : o < toOrdinal y m 1 + daysInMonth y m) :
    fromOrdinal o = ⟨y, m, o - toOrdinal y m 1 + 1⟩ := by
  have hrt := fromOrdinal_toOrdinal y m (o - toOrdinal y m 1 + 1) hm1 hm2
    (by omega) (by omega)
  rw [show toOrdinal y m (o - toOrdinal y m 1 + 1) = o from by
    unfold toOrdinal
    ring] at hrt
  exact hrt

/-- Up to 6 trailing days of the previous month belong to a different
month number. -/
theorem fromOrdinal_month_prev (y m o : ℤ) (hm1 : 1 ≤ m) (hm2 : m ≤ 12)
    (h1 : toOrdinal y m 1 - 6 ≤ o) (h2 : o < toOrdinal y m 1) :
    (fromOrdinal o).month ≠ m := by
  by_cases hm : m = 1
  · subst hm
    have hwrap : toOrdinal y 1 1 = toOrdinal (y - 1) 12 1 + daysInMonth (y - 1) 12 := by
      have h := toOrdinal_jan (y - 1)
      rw [show y - 1 + 1 = y from by ring] at h
      exact h
    have hD := daysInMonth_bounds (y - 1) 12 (by norm_num) (by norm_num)
    rw [fromOrdinal_month_in (y - 1) 12 o (by norm_num) (by norm_num)
      (by omega) (by omega)]
    norm_num
  · have hsucc := daysBeforeMonth_succ y (m - 1) (by omega) (by omega)
    rw [show m - 1 + 1 = m from by ring] at hsucc
    have hprev : toOrdinal y m 1 = toOrdinal y (m - 1) 1 + daysInMonth y (m - 1) := by
      unfold toOrdinal
      omega
    have hD := daysInMonth_bounds y (m - 1) (by omega) (by omega)
    rw [fromOrdinal_month_in y (m - 1) o (by omega) (by omega)
      (by omega) (by omega)]
    show m - 1 ≠ m
    omega

/-- Up to 6 leading days of the next month belong to a different month
number. -/
theorem fromOrdinal_month_next (y m o : ℤ) (hm1 : 1 ≤ m) (hm2 : m ≤ 12)
    (h1 : toOrdinal y m 1 + daysInMonth y m ≤ o)
    (h2 : o < toOrdinal y m 1 + daysInMonth y m + 6) :
    (fromOrdinal o).month ≠ m := by
  by_cases hm : m = 12
  · subst hm
    have hwrap := toOrdinal_jan y
    have hD1 : daysInMonth (y + 1) 1 = 31 := by
      cases hl : isLeap (y + 1) <;> simp [daysInMonth, monthLengths, hl]
    rw [fromOrdinal_month_in (y + 1) 1 o (by norm_num) (by norm_num)
      (by omega) (by omega)]
    norm_num
  · have hsucc := daysBeforeMonth_succ y m hm1 (by omega)
    have hnext : toOrdinal y (m + 1) 1 = toOrdinal y m 1 + daysInMonth y m := by
      unfold toOrdinal
      omega
    have hD := daysInMonth_bounds y (m + 1) (by omega) (by omega)
    rw [fromOrdinal_month_in y (m + 1) o (by omega) (by omega)
      (by omega) (by omega)]
    show m + 1 ≠ m
    omega

/-! ## Lemmas about `get_streak` -/

theorem get_streak_of_not_mem {checks : Finset ℤ} {d : ℤ} (h : d ∉ checks) :
    get_streak checks d = 0 := by
  rw [get_streak]
  simp [h]

theorem get_streak_of_mem {checks : Finset ℤ} {d : ℤ} (h : d ∈ checks) :
    get_streak checks d = get_streak checks (d - 1) + 1 := by
  rw [get_streak]
  simp [h]

/-- The backward walk visits exactly the consecutive run of checked days
ending at `d`: all of `d, d-1, …, d-n+1` are checked and `d-n` is not,
where `n = get_streak checks d`. -/
theorem get_streak_run (n : ℕ) :
    ∀ (checks : Finset ℤ) (d : ℤ), get_streak checks d = n →
      (∀ i : ℕ, i < n → d - (i : ℤ) ∈ checks) ∧ (d - (n : ℤ)) ∉ checks := by
  induction n with
  | zero =>
    intro checks d h
    refine ⟨fun i hi => absurd hi (by omega), ?_⟩
    intro hc
    have hc' : d ∈ checks := by simpa using hc
    rw [get_streak_of_mem hc'] at h
    omega
  | succ k ih =>
    intro checks d h
    have hd : d ∈ checks := by
      by_contra hc
      rw [get_streak_of_not_mem hc] at h
      omega
    have hk : get_streak checks (d - 1) = k := by
      rw [get_streak_of_mem hd] at h
      omega
    obtain ⟨h1, h2⟩ := ih checks (d - 1) hk
    refine ⟨fun i hi => ?_, ?_⟩
    · match i with
      | 0 => simpa using hd
      | j + 1 =>
        have := h1 j (by omega)
        have he : d - ((j + 1 : ℕ) : ℤ) = d - 1 - (j : ℤ) := by push_cast; ring
        rwa [he]
    · have he : d - ((k + 1 : ℕ) : ℤ) = d - 1 - (k : ℤ) := by push_cast; ring
      rwa [he]

/-- C1: `Streak(habit, asOfDate)` is the number of consecutive days
ending at `asOfDate` (walking backward, `asOfDate` included) having a
check-in, stopping at the first day with none: every day `d - i` with
`i < streak` is checked and day `d - streak` is not; in particular the
streak is 0 when `asOfDate` itself is unchecked, and 0 when the habit
has no check-in on or before `asOfDate`. -/
theorem C1_streak_counts_consecutive_days (checks : Finset ℤ) (d : ℤ) :
    ((∀ i : ℕ, i < get_streak checks d → d - (i : ℤ) ∈ checks) ∧
      (d - (get_streak checks d : ℤ)) ∉ checks) ∧
    (d ∉ checks → get_streak checks d = 0) ∧
    ((∀ x ∈ checks, ¬x ≤ d) → get_streak checks d = 0) :=
  ⟨get_streak_run (get_streak checks d) checks d rfl,
    fun h => get_streak_of_not_mem h,
    fun h => get_streak_of_not_mem (fun hc => h d hc (le_refl d))⟩

/-- Closed instance of `C1_streak_counts_consecutive_days` at
`checks = {9, 10}`, `d = 10`. -/
theorem C1_streak_counts_consecutive_days_witness :
    ((∀ i : ℕ, i < get_streak ({9, 10} : Finset ℤ) 10 →
        (10 : ℤ) - (i : ℤ) ∈ ({9, 10} : Finset ℤ)) ∧
      ((10 : ℤ) - (get_streak ({9, 10} : Finset ℤ) 10 : ℤ)) ∉ ({9, 10} : Finset ℤ)) ∧
    ((10 : ℤ) ∉ ({9, 10} : Finset ℤ) → get_streak ({9, 10} : Finset ℤ) 10 = 0) ∧
    ((∀ x ∈ ({9, 10} : Finset ℤ), ¬x ≤ (10 : ℤ)) →
      get_streak ({9, 10} : Finset ℤ) 10 = 0) :=
  C1_streak_counts_consecutive_days {9, 10} 10

/-- C10: the backward walk of `get_streak` terminates after at most as
many steps as there are check-in rows: the streak never exceeds the
number of stored check-in dates, so the function is total. -/
theorem C10_streak_total_and_bounded (checks : Finset ℤ) (d : ℤ) :
    get_streak checks d ≤ checks.card := by
  obtain ⟨h1, _⟩ := get_streak_run (get_streak checks d) checks d rfl
  have hinj : Set.InjOn (fun i : ℕ => d - (i : ℤ))
      ↑(Finset.range (get_streak checks d)) := by
    intro a _ b _ hab
    simp only at hab
    omega
  have hc : (Finset.range (get_streak checks d)).card ≤ checks.card :=
    Finset.card_le_card_of_injOn (fun i : ℕ => d - (i : ℤ))
      (fun a ha => h1 a (Finset.mem_range.1 ha)) hinj
  simpa using hc

/-- C2: for a habit owned by the account and a valid date, toggling the
same (habitId, date) twice restores the original checked state of that
pair: a check-in row for it exists after the two calls iff one existed
before. -/
theorem C2_toggle_twice_restores (db : DB) (uid hid : ℕ) (s : String)
    (h : HabitRow) (ymd : Ymd) (hparse : fromisoformat? s = some ymd)
    (hfind : findHabit db hid = some h) (hown : h.user_id = uid)
    (hinv : checkinsUnique db) :
    checkedState (toggle (toggle db uid (some hid) s).2 uid (some hid) s).2
        hid ymd.toOrd = checkedState db hid ymd.toOrd := by
  rw [toggle_owned hparse hfind hown]
  by_cases hc : checkedState db hid ymd.toOrd = true
  · rw [if_pos hc]
    dsimp only
    have hfind' : findHabit
        { db with checkins := eraseFirstCheckin db.checkins hid ymd.toOrd }
        hid = some h := hfind
    have h2 : checkedState
        { db with checkins := eraseFirstCheckin db.checkins hid ymd.toOrd }
        hid ymd.toOrd = false :=
      checkedState_eq_false.2 (eraseFirstCheckin_no_match hinv)
    rw [toggle_owned hparse hfind' hown, if_neg (by simp [h2]), hc]
    dsimp only
    simp [checkedState]
  · rw [if_neg hc]
    dsimp only
    have hc' : checkedState db hid ymd.toOrd = false := by simpa using hc
    have hfind' : findHabit
        { db with checkins := db.checkins ++ [⟨hid, ymd.toOrd⟩] } hid =
        some h := hfind
    have h2 : checkedState
        { db with checkins := db.checkins ++ [⟨hid, ymd.toOrd⟩] }
        hid ymd.toOrd = true := by
      simp [checkedState]
    rw [toggle_owned hparse hfind' hown, if_pos h2]
    dsimp only
    have h3 : eraseFirstCheckin (db.checkins ++ [⟨hid, ymd.toOrd⟩])
        hid ymd.toOrd = db.checkins := by
      rw [eraseFirstCheckin_append (checkedState_eq_false.1 hc')]
      simp [eraseFirstCheckin]
    unfold checkedState
    dsimp only
    rw [h3]

/-- Closed instance of `C2_toggle_twice_restores`: account 1 toggles
habit 1 on 2024-05-01 twice starting from `wDB`. -/
theorem C2_toggle_twice_restores_witness :
    checkedState
        (toggle (toggle wDB 1 (some 1) "2024-05-01").2 1 (some 1) "2024-05-01").2
        1 (Ymd.mk 2024 5 1).toOrd =
      checkedState wDB 1 (Ymd.mk 2024 5 1).toOrd :=
  C2_toggle_twice_restores wDB 1 1 "2024-05-01" ⟨1, "run", "#3b82f6", 1⟩
    ⟨2024, 5, 1⟩ (by decide) (by decide) (by decide) (by decide)

/-- C7: with a valid date string, `toggle` answers 404 when the habit id
does not exist and 403 when the habit belongs to another account, and in
both cases the database is returned unchanged. -/
theorem C7_toggle_notfound_forbidden (db : DB) (uid hid : ℕ) (s : String)
    (ymd : Ymd) (hparse : fromisoformat? s = some ymd) :
    (findHabit db hid = none → toggle db uid (some hid) s = (.notFound, db)) ∧
    (∀ h : HabitRow, findHabit db hid = some h → h.user_id ≠ uid →
      toggle db uid (some hid) s = (.forbidden, db)) := by
  constructor
  · intro hf
    simp [toggle, hparse, hf]
  · intro h hf hne
    simp [toggle, hparse, hf, hne]

/-- Closed instance of `C7_toggle_notfound_forbidden` on `wDB` with the
valid date 2024-05-01: habit id 7 is absent, and habit 1 is not owned by
account 2. -/
theorem C7_toggle_notfound_forbidden_witness :
    ((findHabit wDB 7 = none →
        toggle wDB 2 (some 7) "2024-05-01" = (.notFound, wDB)) ∧
      (∀ h : HabitRow, findHabit wDB 7 = some h → h.user_id ≠ 2 →
        toggle wDB 2 (some 7) "2024-05-01" = (.forbidden, wDB))) ∧
    ((findHabit wDB 1 = none →
        toggle wDB 2 (some 1) "2024-05-01" = (.notFound, wDB)) ∧
      (∀ h : HabitRow, findHabit wDB 1 = some h → h.user_id ≠ 2 →
        toggle wDB 2 (some 1) "2024-05-01" = (.forbidden, wDB))) :=
  ⟨C7_toggle_notfound_forbidden wDB 2 7 "2024-05-01" ⟨2024, 5, 1⟩ (by decide),
    C7_toggle_notfound_forbidden wDB 2 1 "2024-05-01" ⟨2024, 5, 1⟩ (by decide)⟩

/-- C8 (defect witness): a malformed day string makes `toggle` raise the
unhandled `ValueError` of `date.fromisoformat` (modelled as `crash`, an
HTTP 500) instead of answering a clean 400; the database is unchanged. -/
theorem C8_invalid_date_crashes :
    toggle wDB 1 (some 1) "2024-13-01" = (.crash, wDB) ∧
    toggle wDB 1 (some 1) "not-a-date" = (.crash, wDB) ∧
    toggle wDB 1 (some 1) "2023-02-29" = (.crash, wDB) := by
  refine ⟨?_, ?_, ?_⟩ <;> rfl

/-- C9: the empty initial state satisfies the (habit_id, date)
uniqueness invariant, and every exposed operation preserves it. -/
theorem C9_checkin_uniqueness_invariant (db : DB) (uid hid : ℕ)
    (habitId? : Option ℕ) (s name email password : String)
    (color? : Option String) (hash : String → String)
    (check : String → String → Bool) (hinv : checkinsUnique db) :
    checkinsUnique initialDB ∧
    checkinsUnique (toggle db uid habitId? s).2 ∧
    checkinsUnique (create_habit db uid name color?).1 ∧
    checkinsUnique (delete_habit db uid hid).2 ∧
    checkinsUnique (signup db hash email password).1 ∧
    checkinsUnique (login db check email password).2 ∧
    checkinsUnique (toggle_theme db uid) := by
  refine ⟨by simp [checkinsUnique, initialDB],
    toggle_preserves_checkinsUnique db uid habitId? s hinv, ?_, ?_, ?_, ?_, ?_⟩
  · unfold checkinsUnique
    rw [create_habit_checkins]
    exact hinv
  · unfold checkinsUnique
    rw [delete_habit_checkins]
    exact hinv
  · unfold checkinsUnique
    rw [signup_checkins]
    exact hinv
  · unfold checkinsUnique
    rw [login_db]
    exact hinv
  · unfold checkinsUnique
    rw [toggle_theme_checkins]
    exact hinv

/-- C6: `CreateHabit` defaults the color to `#3b82f6` when none is
supplied; when a habit with the same (account, name) already exists the
insert conflicts and rolls back, leaving the database unchanged with
still exactly one stored (account, name) row; an account with no habit
of that name can create it regardless of other accounts' habits. -/
theorem C6_create_habit_conflict_and_default (db : DB) (uid uid2 : ℕ)
    (name : String) (color? : Option String) :
    ((db.habits.any fun h => h.user_id == uid && h.name == name) = false →
      (create_habit db uid name none).1.habits =
        db.habits ++ [⟨db.nextHabitId, name, "#3b82f6", uid⟩]) ∧
    ((∃ h ∈ db.habits, h.user_id = uid ∧ h.name = name) →
      create_habit db uid name color? = (db, false)) ∧
    ((∃ h ∈ db.habits, h.user_id = uid ∧ h.name = name) →
      habitNamesUnique db →
      ((create_habit db uid name color?).1.habits.countP
        fun h => h.user_id == uid && h.name == name) = 1) ∧
    ((db.habits.any fun h => h.user_id == uid2 && h.name == name) = false →
      (create_habit db uid2 name color?).2 = true) := by
  have hdup : ∀ (u : ℕ) (c? : Option String),
      (∃ h ∈ db.habits, h.user_id = u ∧ h.name = name) →
      create_habit db u name c? = (db, false) := by
    intro u c? ⟨h, hm, hp⟩
    have hany : (db.habits.any fun x => x.user_id == u && x.name == name) = true :=
      List.any_eq_true.2 ⟨h, hm, by simp [hp.1, hp.2]⟩
    simp [create_habit, hany]
  refine ⟨fun hno => ?_, hdup uid color?, fun hex hnd => ?_, fun hno => ?_⟩
  · simp [create_habit, hno]
  · rw [hdup uid color? hex]
    exact countP_pair_eq_one db.habits hnd uid name hex
  · simp [create_habit, hno]

/-- Closed instance of `C6_create_habit_conflict_and_default` on `wDB`
(accounts 1 and 2, habit name "run" owned by account 1). -/
theorem C6_create_habit_conflict_and_default_witness :
    (((wDB.habits.any fun h => h.user_id == 1 && h.name == "run") = false →
      (create_habit wDB 1 "run" none).1.habits =
        wDB.habits ++ [⟨wDB.nextHabitId, "run", "#3b82f6", 1⟩]) ∧
    ((∃ h ∈ wDB.habits, h.user_id = 1 ∧ h.name = "run") →
      create_habit wDB 1 "run" (some "#fff") = (wDB, false)) ∧
    ((∃ h ∈ wDB.habits, h.user_id = 1 ∧ h.name = "run") →
      habitNamesUnique wDB →
      ((create_habit wDB 1 "run" (some "#fff")).1.habits.countP
        fun h => h.user_id == 1 && h.name == "run") = 1) ∧
    ((wDB.habits.any fun h => h.user_id == 2 && h.name == "run") = false →
      (create_habit wDB 2 "run" (some "#fff")).2 = true)) :=
  C6_create_habit_conflict_and_default wDB 1 2 "run" (some "#fff")

/-- C3 (defect witness): deleting a habit deletes only the habit row.
No SQLAlchemy relationship or SQLite foreign-key cascade is configured,
so the habit's check-in rows survive as orphans; the habit id itself is
gone afterwards (`get_or_404` then answers 404). -/
theorem C3_delete_habit_leaves_orphan_checkins :
    delete_habit
        ⟨[⟨1, "a@b.c", "h", "light"⟩], [⟨1, "run", "#3b82f6", 1⟩],
          [⟨1, 738917⟩], 2, 2⟩ 1 1 =
      (.ok, ⟨[⟨1, "a@b.c", "h", "light"⟩], [],
        [⟨1, 738917⟩], 2, 2⟩) ∧
    (delete_habit
        ⟨[⟨1, "a@b.c", "h", "light"⟩], [⟨1, "run", "#3b82f6", 1⟩],
          [⟨1, 738917⟩], 2, 2⟩ 1 1).2.checkins.countP
      (fun c => c.habit_id == 1) = 1 ∧
    findHabit (delete_habit
        ⟨[⟨1, "a@b.c", "h", "light"⟩], [⟨1, "run", "#3b82f6", 1⟩],
          [⟨1, 738917⟩], 2, 2⟩ 1 1).2 1 = none := by
  refine ⟨rfl, rfl, rfl⟩

/-- The seven dashboard days are pairwise distinct. -/
theorem weekDays_nodup (today : ℤ) : (weekDays today).Nodup := by
  have hinj : Function.Injective (fun i : ℕ => today - (i : ℤ)) := by
    intro a b hab
    simp only at hab
    omega
  show (((List.range 7).reverse).map fun i : ℕ => today - (i : ℤ)).Nodup
  exact (List.nodup_reverse.2 (List.nodup_range 7)).map hinj

/-- C5: `WeeklyLabels` renders the 7 dates ending at `asOfDate`
(inclusive, oldest first) as weekday abbreviations, and `WeeklyCounts`
is the list of 7 per-day counts of the account's check-ins, whose sum is
the account's total number of check-ins over those 7 days. -/
theorem C5_weekly_labels_and_counts (db : DB) (uid : ℕ) (today : ℤ)
    (hids : habitIdsUnique db) :
    weekDays today = [today - 6, today - 5, today - 4, today - 3, today - 2,
      today - 1, today] ∧
    analytics_labels today = (weekDays today).map dayAbbrev ∧
    (analytics_counts db uid today).length = 7 ∧
    analytics_counts db uid today = (weekDays today).map (ownedCountOn db uid) ∧
    (analytics_counts db uid today).sum =
      db.checkins.countP
        (fun c => isOwned db uid c.habit_id && (weekDays today).contains c.date) := by
  have hcong : (weekDays today).map (countJoin db uid) =
      (weekDays today).map (ownedCountOn db uid) :=
    List.map_congr_left fun d _ => countJoin_eq_ownedCountOn db uid d hids
  have hlen : (analytics_counts db uid today).length = 7 := by
    unfold analytics_counts
    rw [List.length_map, weekDays_eq]
    rfl
  refine ⟨weekDays_eq today, rfl, hlen, ?_, ?_⟩
  · exact hcong
  · show ((weekDays today).map (countJoin db uid)).sum = _
    rw [hcong]
    have : (weekDays today).map (ownedCountOn db uid) =
        (weekDays today).map fun d =>
          db.checkins.countP fun c => c.date == d && isOwned db uid c.habit_id :=
      rfl
    rw [this, sum_countP_days _ _ (weekDays_nodup today) db.checkins]

/-- Closed instance of `C5_weekly_labels_and_counts` on `wDB5`
(account 1, as-of day 100). -/
theorem C5_weekly_labels_and_counts_witness :
    weekDays 100 = [94, 95, 96, 97, 98, 99, 100] ∧
    analytics_labels 100 = (weekDays 100).map dayAbbrev ∧
    (analytics_counts wDB5 1 100).length = 7 ∧
    analytics_counts wDB5 1 100 = (weekDays 100).map (ownedCountOn wDB5 1) ∧
    (analytics_counts wDB5 1 100).sum =
      wDB5.checkins.countP
        (fun c => isOwned wDB5 1 c.habit_id && (weekDays 100).contains c.date) := by
  have h := C5_weekly_labels_and_counts wDB5 1 100 (by decide)
  refine ⟨?_, h.2.1, h.2.2.1, h.2.2.2.1, h.2.2.2.2⟩
  rw [h.1]
  norm_num

/-- C4: `MonthlyCalendar` is a week-major, Sunday-started grid: every
row has exactly 7 cells, there are 4 to 6 rows, each cell's `checked`
flag is true iff a check-in exists for its date, and `in_month` is true
iff the cell's date is one of the target month's days; for February 2024
the grid is the 35 consecutive days Jan 28 – Mar 2, `in_month` being
false exactly on Jan 28–31 and Mar 1–2. -/
theorem C4_monthly_calendar_grid (checks : Finset ℤ) (year month : ℤ)
    (hm1 : 1 ≤ month) (hm2 : month ≤ 12) :
    (∀ week ∈ monthly_calendar checks year month, week.length = 7) ∧
    (4 ≤ (monthly_calendar checks year month).length ∧
      (monthly_calendar checks year month).length ≤ 6) ∧
    (∀ week ∈ monthly_calendar checks year month, ∀ cell ∈ week,
      (cell.checked = true ↔ cell.date ∈ checks) ∧
      (cell.in_month = true ↔
        toOrdinal year month 1 ≤ cell.date ∧
          cell.date < toOrdinal year month 1 + daysInMonth year month)) ∧
    ((monthly_calendar ∅ 2024 2).flatten.map Cell.date =
      (List.range 35).map fun i => toOrdinal 2024 1 28 + (i : ℤ)) ∧
    ((monthly_calendar ∅ 2024 2).flatten.map Cell.in_month =
      List.replicate 4 false ++ List.replicate 29 true ++
        List.replicate 2 false) := by
  refine ⟨monthly_calendar_row_length checks year month, ?_, ?_,
    by decide, by decide⟩
  · rw [monthly_calendar_length]
    exact gridWeeks_bounds year month hm1 hm2
  · intro week hw cell hc
    obtain ⟨hchk, hinm, hlo, hhi⟩ :=
      monthly_calendar_cell checks year month week hw cell hc
    have hspan := gridSpan year month hm1 hm2
    have hD := daysInMonth_bounds year month hm1 hm2
    have hwlo : toOrdinal year month 1 - 6 ≤ cell.date := by
      unfold gridStart weekday at hlo
      omega
    have hwhi : cell.date <
        toOrdinal year month 1 + daysInMonth year month + 6 := by
      rw [hspan] at hhi
      unfold weekday at hhi
      omega
    constructor
    · rw [hchk]
      simp
    · rw [hinm]
      simp only [beq_iff_eq]
      constructor
      · intro heq
        by_contra hnot
        rw [not_and_or] at hnot
        rcases hnot with h | h
        · exact fromOrdinal_month_prev year month cell.date hm1 hm2 hwlo
            (by omega) heq
        · exact fromOrdinal_month_next year month cell.date hm1 hm2
            (by omega) hwhi heq
      · rintro ⟨ha, hb⟩
        rw [fromOrdinal_month_in year month cell.date hm1 hm2 ha hb]

/-- Closed instance of `C4_monthly_calendar_grid` at August 2025 with a
check-in on 2025-08-05. -/
theorem C4_monthly_calendar_grid_witness :
    (∀ week ∈ monthly_calendar {toOrdinal 2025 8 5} 2025 8, week.length = 7) ∧
    (4 ≤ (monthly_calendar {toOrdinal 2025 8 5} 2025 8).length ∧
      (monthly_calendar {toOrdinal 2025 8 5} 2025 8).length ≤ 6) ∧
    (∀ week ∈ monthly_calendar {toOrdinal 2025 8 5} 2025 8, ∀ cell ∈ week,
      (cell.checked = true ↔ cell.date ∈ ({toOrdinal 2025 8 5} : Finset ℤ)) ∧
      (cell.in_month = true ↔
        toOrdinal 2025 8 1 ≤ cell.date ∧
          cell.date < toOrdinal 2025 8 1 + daysInMonth 2025 8)) ∧
    ((monthly_calendar ∅ 2024 2).flatten.map Cell.date =
      (List.range 35).map fun i => toOrdinal 2024 1 28 + (i : ℤ)) ∧
    ((monthly_calendar ∅ 2024 2).flatten.map Cell.in_month =
      List.replicate 4 false ++ List.replicate 29 true ++
        List.replicate 2 false) :=
  C4_monthly_calendar_grid {toOrdinal 2025 8 5} 2025 8 (by norm_num)
    (by norm_num)

/-- Closed instance of `C9_checkin_uniqueness_invariant` on `wDB`. -/
theorem C9_checkin_uniqueness_invariant_witness :
    checkinsUnique initialDB ∧
    checkinsUnique (toggle wDB 1 (some 1) "2024-05-01").2 ∧
    checkinsUnique (create_habit wDB 1 "read" none).1 ∧
    checkinsUnique (delete_habit wDB 1 1).2 ∧
    checkinsUnique (signup wDB id "x@y.z" "pw").1 ∧
    checkinsUnique (login wDB (fun a b => a == b) "a@b.c" "h").2 ∧
    checkinsUnique (toggle_theme wDB 1) :=
  C9_checkin_uniqueness_invariant wDB 1 1 (some 1) "2024-05-01" "read" "x@y.z"
    "pw" none id (fun a b => a == b) (by decide)

end HabitTracker
